import Mathlib

/-!
Shallow embedding of the signatur client-side PDF signing app
(src/src/app.tsx, src/unnamed/part_000 = src/lib.ts, src/unnamed/part_002 =
src/starter-modal.tsx) and proofs about its compositing, placement-store,
export, persistence and rasterization logic.

JS numbers are modelled as rationals, image pixel data as abstract sampling
functions, and canvas 2D contexts as lists of drawImage calls together with
a per-point compositing semantics.
-/

namespace Signatur

/-- Abstract pixel color (the concrete color space is irrelevant to the claims). -/
abbrev Color := Nat

/-- A decoded raster image (HTMLImageElement): natural width and height, and a
sampling function over source-space coordinates. `none` models a fully
transparent pixel of a transparent PNG stamp; `some c` an opaque pixel. -/
structure Img where
  width : ℚ
  height : ℚ
  sample : ℚ → ℚ → Option Color

/-- The SignType union from app.tsx: a stamp variant. -/
inductive SignType
  | signature
  | initial
deriving DecidableEq, Repr

/-- SignedLocation from app.tsx: a committed (or preview) placement on a page. -/
structure SignedLocation where
  x : ℚ
  y : ℚ
  i : ℕ
  height : ℚ
  type : SignType
deriving DecidableEq, Repr

/-- GlobalSignedLocation from app.tsx: a SignedLocation plus its page index. -/
structure GlobalSignedLocation extends SignedLocation where
  pageIndex : ℕ
deriving DecidableEq, Repr

/-- An HTMLCanvasElement as draw sees it: dimensions and whether getContext
returns a context (the code guards a null context with an early return). -/
structure Canvas where
  width : ℚ
  height : ℚ
  hasContext : Bool

/-- One context.drawImage(img, x, y, w, h) call: the image is painted into the
axis-aligned rectangle with top-left (x, y), width w and height h. -/
structure DrawCall where
  img : Img
  x : ℚ
  y : ℚ
  w : ℚ
  h : ℚ

/-- Per-point contribution of one drawImage call: inside the destination
rectangle the source image is sampled at the back-mapped source coordinate
(standard scaling semantics of drawImage); outside it contributes nothing. -/
def DrawCall.contribution (c : DrawCall) (px py : ℚ) : Option Color :=
  if c.x ≤ px ∧ px < c.x + c.w ∧ c.y ≤ py ∧ py < c.y + c.h then
    c.img.sample ((px - c.x) * c.img.width / c.w) ((py - c.y) * c.img.height / c.h)
  else
    none

/-- Source-over compositing of a list of drawImage calls at one canvas point,
on top of the prior color of that point: each call in order overwrites the
point where it contributes an opaque pixel and leaves it unchanged elsewhere. -/
def renderPoint (calls : List DrawCall) (prior : Color) (px py : ℚ) : Color :=
  calls.foldl (fun acc c => (c.contribution px py).getD acc) prior

/-- The variant image array the draw loop selects for a placement:
signatureImgArray for a signature, initialImgArray for an initial
(app.tsx line 27). -/
def variantArray (signatureImgArray initialImgArray : List Img) (loc : SignedLocation) : List Img :=
  if loc.type = SignType.signature then signatureImgArray else initialImgArray

/-- One iteration of the draw loop (app.tsx lines 26-37): select the stamp
image at index i % length of the variant array, and produce the drawImage
call centered at (x, y) with height `height` and aspect-preserving width.
The `none` result models the TypeError thrown by the unchecked
signImgArray[i % signImgArray.length]! access when the array is empty
(in JS, i % 0 is NaN and indexing by NaN yields undefined). -/
def signStampCall (signatureImgArray initialImgArray : List Img) (loc : SignedLocation) :
    Option DrawCall :=
  let signImgArray := variantArray signatureImgArray initialImgArray loc
  (signImgArray.get? (loc.i % signImgArray.length)).map (fun signImg =>
    { img := signImg
    , x := loc.x - (loc.height * (signImg.width / signImg.height)) / 2
    , y := loc.y - loc.height / 2
    , w := loc.height * (signImg.width / signImg.height)
    , h := loc.height })

/-- The for-of loop of draw over signedLocations, in list order; a `none`
anywhere aborts the paint with a thrown TypeError. -/
def drawLoop (signatureImgArray initialImgArray : List Img) :
    List SignedLocation → Option (List DrawCall)
  | [] => some []
  | loc :: rest =>
    match signStampCall signatureImgArray initialImgArray loc with
    | none => none
    | some c => (drawLoop signatureImgArray initialImgArray rest).map (fun cs => c :: cs)

/-- The context.drawImage(baseImage, 0, 0) call of draw: at the origin, at the
image's natural size. -/
def baseCall (baseImage : Img) : DrawCall :=
  { img := baseImage, x := 0, y := 0, w := baseImage.width, h := baseImage.height }

/-- The exported draw function (app.tsx lines 22-38): a missing 2d context
silently aborts the paint (no calls are made); otherwise the base page image
is drawn at the origin and then every signed location in list order. The
result is the list of drawImage calls the invocation performs, or `none` if
the unchecked stamp lookup throws. -/
def draw (canvas : Canvas) (baseImage : Img) (signatureImgArray initialImgArray : List Img)
    (signedLocations : List SignedLocation) : Option (List DrawCall) :=
  if canvas.hasContext then
    (drawLoop signatureImgArray initialImgArray signedLocations).map
      (fun stamps => baseCall baseImage :: stamps)
  else
    some []

/-- The placement the App closures construct when committing or previewing a
sign location (app.tsx lines 296-304 and 312-318): x, y from the pointer,
i = count of existing placements of the currently selected variant, height
from the current slider value, type from the current variant toggle. -/
def mkPlacement (signedLocations : List GlobalSignedLocation) (signType : SignType)
    (signatureHeight : ℚ) (pageIndex : ℕ) (x y : ℚ) : GlobalSignedLocation :=
  { x := x
  , y := y
  , i := (signedLocations.filter (fun l => decide (l.type = signType))).length
  , height := signatureHeight
  , type := signType
  , pageIndex := pageIndex }

/-- A transient pointer position used for the preview placement. -/
structure PreviewLocation where
  x : ℚ
  y : ℚ

/-- The drawOnCanvas closure (app.tsx lines 287-308): paints the page's base
image, the committed placements whose pageIndex matches this page (in log
order), and, when a pointer position is supplied, one preview placement last. -/
def drawOnCanvas (canvas : Canvas) (image : Img) (signatures initials : List Img)
    (signedLocations : List GlobalSignedLocation) (signType : SignType) (signatureHeight : ℚ)
    (index : ℕ) (extraSignLocation : Option PreviewLocation) : Option (List DrawCall) :=
  draw canvas image signatures initials
    (((signedLocations.filter (fun s => decide (s.pageIndex = index))).map
        (fun s => s.toSignedLocation)) ++
      (match extraSignLocation with
       | some p =>
           [(mkPlacement signedLocations signType signatureHeight index p.x p.y).toSignedLocation]
       | none => []))

/-- The signOnPage closure (app.tsx lines 309-320): append one new placement
to the store. -/
def signOnPage (signedLocations : List GlobalSignedLocation) (signType : SignType)
    (signatureHeight : ℚ) (index : ℕ) (x y : ℚ) : List GlobalSignedLocation :=
  signedLocations ++ [mkPlacement signedLocations signType signatureHeight index x y]

/-- The undo button (app.tsx line 206): setSignedLocations((s) => s.slice(0, -1)),
which drops the last element and leaves an empty array empty. -/
def undo (signedLocations : List GlobalSignedLocation) : List GlobalSignedLocation :=
  signedLocations.dropLast

/-- The trash button (app.tsx line 217): setSignedLocations([]). -/
def reset : List GlobalSignedLocation := []

/-- A parsed document as useParsePdf exposes it (lib.ts lines 151-155). -/
structure ParsedPdf where
  images : List Img
  parsedAtStr : String
  fileName : String

/-- The App state the parsedPdf effect touches (app.tsx lines 96-98): the
per-page canvas slot array (Array.from yields undefined slots until each
Canvas mounts and registers itself) and the placement store. -/
structure DocState where
  canvasArray : List (Option Canvas)
  signedLocations : List GlobalSignedLocation

/-- The useEffect on parsedPdf (app.tsx lines 101-105): a null document leaves
the state alone; a freshly parsed document re-creates the canvas slot array
with one (empty) slot per page image and clears the placement store. -/
def onParsedPdfChange (st : DocState) (parsedPdf : Option ParsedPdf) : DocState :=
  match parsedPdf with
  | none => st
  | some p =>
    { canvasArray := List.replicate p.images.length none
    , signedLocations := [] }

/-! The jsPDF export model (app.tsx lines 238-251). A jsPDF document is its
ordered page list; a new document starts with the library's default first
page, deletePage n removes the n-th page (1-based), addPage appends an empty
page with the given dimensions, and addImage places an image onto the current
(last) page. -/

/-- One image placed on an output PDF page by pdf.addImage. -/
structure PlacedImage where
  canvasId : ℕ
  x : ℚ
  y : ℚ
  w : ℚ
  h : ℚ
deriving DecidableEq, Repr

/-- One page of the output PDF: its dimensions and the images placed on it. -/
structure PdfPage where
  width : ℚ
  height : ℚ
  images : List PlacedImage
deriving DecidableEq, Repr

/-- A jsPDF document: its ordered pages. -/
structure JsPdf where
  pages : List PdfPage
deriving DecidableEq, Repr

/-- new jsPDF(...): the library creates a document that already contains one
default first page (whatever its dimensions are). -/
def JsPdf.new (defaultPage : PdfPage) : JsPdf :=
  { pages := [defaultPage] }

/-- pdf.deletePage(n): removes the n-th page, 1-based. -/
def JsPdf.deletePage (doc : JsPdf) (n : ℕ) : JsPdf :=
  { pages := doc.pages.eraseIdx (n - 1) }

/-- pdf.addPage([w, h]): appends a new empty page with the given dimensions
and makes it the current page. -/
def JsPdf.addPage (doc : JsPdf) (w h : ℚ) : JsPdf :=
  { pages := doc.pages ++ [{ width := w, height := h, images := [] }] }

/-- Replace the last page of a page list by f of it. -/
def modifyLast (f : PdfPage → PdfPage) : List PdfPage → List PdfPage
  | [] => []
  | [p] => [f p]
  | p :: q :: rest => p :: modifyLast f (q :: rest)

/-- pdf.addImage(canvas, 'PNG', x, y, w, h, ...): draws the canvas's pixels
onto the current (last) page at the given rectangle. -/
def JsPdf.addImage (doc : JsPdf) (canvasId : ℕ) (x y w h : ℚ) : JsPdf :=
  { pages := modifyLast (fun p => { p with images := p.images ++ [⟨canvasId, x, y, w, h⟩] }) doc.pages }

/-- A painted per-page canvas as the exporter reads it: an identifier for its
pixel contents plus its dimensions. -/
structure ExportCanvas where
  id : ℕ
  width : ℚ
  height : ℚ
deriving DecidableEq, Repr

/-- One iteration of the export loop (app.tsx lines 245-248): addPage with the
canvas's dimensions, then addImage of the canvas full-bleed at the origin. -/
def exportStep (doc : JsPdf) (canvas : ExportCanvas) : JsPdf :=
  (doc.addPage canvas.width canvas.height).addImage canvas.id 0 0 canvas.width canvas.height

/-- The export button handler (app.tsx lines 238-251): create a jsPDF document,
delete its default first page, then run the export loop over the canvas array
in order. -/
def exportPdf (defaultPage : PdfPage) (canvasArray : List ExportCanvas) : JsPdf :=
  canvasArray.foldl exportStep ((JsPdf.new defaultPage).deletePage 1)

/-- The page a full-bleed export of one canvas produces. -/
def exportedPage (c : ExportCanvas) : PdfPage :=
  { width := c.width, height := c.height, images := [⟨c.id, 0, 0, c.width, c.height⟩] }

/-! The useParsePdf hook (lib.ts lines 149-178). pdfInputOnChange is an async
function; its synchronous prologue runs up to the point where it starts
renderPdfToImgs for the chosen file, and a separate completion step models the
continuation after that await resolves. The in-flight guard is the
renderInProgressRef boolean. -/

/-- An uploaded file: its name plus an identifier for its bytes. -/
structure JsFile where
  name : String
  blobId : ℕ
deriving DecidableEq, Repr

/-- The state of the useParsePdf hook: the renderInProgressRef flag, the
parsedPdf state, the file whose render is in flight (the `file` local of the
suspended async call), and a count of console.warn emissions. -/
structure ParseHookState where
  renderInProgress : Bool
  parsedPdf : Option ParsedPdf
  pendingFile : Option JsFile
  warnings : ℕ

/-- Synchronous prologue of pdfInputOnChange (lib.ts lines 157-167): a change
event with no file list or an empty one returns with no effect; a request
arriving while a render is in flight is rejected with only a console warning
(not queued, no state change); otherwise the flag is set and the render of
the chosen file starts. -/
def pdfInputOnChangeStart (st : ParseHookState) (files : Option (List JsFile)) :
    ParseHookState :=
  match files with
  | none => st
  | some fs =>
    match fs.head? with
    | none => st
    | some file =>
      if st.renderInProgress then
        { st with warnings := st.warnings + 1 }
      else
        { st with renderInProgress := true, pendingFile := some file }

/-- Continuation of pdfInputOnChange after renderPdfToImgs resolves (lib.ts
lines 166-171): publish the rendered images with the file's name, then clear
the in-flight flag. `render` gives the images renderPdfToImgs produces for a
file and `parsedAtStr` the timestamp taken at completion. -/
def pdfInputOnChangeComplete (st : ParseHookState) (render : JsFile → List Img)
    (parsedAtStr : String) : ParseHookState :=
  match st.pendingFile with
  | none => st
  | some file =>
    { st with
      parsedPdf := some { images := render file, parsedAtStr := parsedAtStr, fileName := file.name }
    , renderInProgress := false
    , pendingFile := none }

/-! The rasterizer renderPdfToImgs (lib.ts lines 113-147). The page numbers
1..numPages are mapped over with an async callback and gathered with
Promise.all. Under JS semantics, Array.prototype.map calls each async callback
in array order and each runs synchronously up to its first await (creating the
page's canvas and requesting the page from the parsing session) before the
next callback starts; every continuation (render completion, blob encoding,
image decode) runs only after the whole map has returned, in an order chosen
by the environment. -/

/-- The pageNums array (lib.ts line 116): 1, 2, ..., numPages. -/
def pageNums (numPages : ℕ) : List ℕ :=
  (List.range numPages).map (fun i => i + 1)

/-- An event in the rasterization trace: a page's async render task begins
(its synchronous prologue runs), or finishes (its image has been decoded). -/
inductive PageEv
  | start (page : ℕ)
  | finish (page : ℕ)
deriving DecidableEq, Repr

/-- The event trace of renderPdfToImgs for a document with numPages pages:
every page task is started in page order during the synchronous map, and the
completions arrive afterwards in the order the environment resolves them
(completionOrder). -/
def renderTrace (numPages : ℕ) (completionOrder : List ℕ) : List PageEv :=
  (pageNums numPages).map PageEv.start ++ completionOrder.map PageEv.finish

/-- Promise.all(imagePromises): the resolved array holds, at index k, the
value of the k-th promise — page k+1's image — regardless of the order in
which the promises settled. `imageOf` gives the image each page's task
resolved with. -/
def promiseAllImages (numPages : ℕ) (imageOf : ℕ → Img) : List Img :=
  (pageNums numPages).map imageOf

/-- Two pages' render tasks overlap in a trace: each starts before the other
finishes. -/
def Overlaps (t : List PageEv) (p q : ℕ) : Prop :=
  t.indexOf (PageEv.start q) < t.indexOf (PageEv.finish p) ∧
  t.indexOf (PageEv.start p) < t.indexOf (PageEv.finish q)

/-- A trace renders pages strictly one at a time: no two distinct pages' tasks
overlap. -/
def SequentialOneAtATime (t : List PageEv) : Prop :=
  ∀ p q, p ≠ q → ¬ Overlaps t p q

/-! The stamp persistence layer (lib.ts lines 6-53). indexedDB holds two
object stores, signatures and initials, each an ordered collection of raw
image byte buffers. -/

/-- Raw ArrayBuffer contents, abstractly. -/
abbrev Buf := ℕ

/-- A Blob: its byte contents. -/
structure JsBlob where
  data : Buf
deriving DecidableEq, Repr

/-- blobToArrayBuffer (lib.ts lines 96-110): read a blob's bytes. -/
def blobToArrayBuffer (b : JsBlob) : Buf := b.data

/-- The two object store names of the signatur database (lib.ts lines 68-69). -/
inductive StoreName
  | signatures
  | initials
deriving DecidableEq, Repr

/-- The signatur indexedDB database: its two object stores, each an ordered
list of stored buffers. -/
structure IDb where
  signatures : List Buf
  initials : List Buf
deriving DecidableEq, Repr

/-- Contents of one named object store. -/
def IDb.getStore (db : IDb) : StoreName → List Buf
  | .signatures => db.signatures
  | .initials => db.initials

/-- Overwrite one named object store. -/
def IDb.setStore (db : IDb) : StoreName → List Buf → IDb
  | .signatures, v => { db with signatures := v }
  | .initials, v => { db with initials := v }

/-- The other object store. -/
def StoreName.other : StoreName → StoreName
  | .signatures => .initials
  | .initials => .signatures

/-- writeBlobsToIndexedDb (lib.ts lines 22-53): convert every blob to an
ArrayBuffer, open a readwrite transaction on the named store, clear the store,
then add every buffer; requests of one IndexedDB transaction execute in the
order they were placed, so the buffers are appended in list order. -/
def writeBlobsToIndexedDb (blobs : List JsBlob) (db : IDb) (storeName : StoreName) : IDb :=
  let arrayBuffers := blobs.map blobToArrayBuffer
  let cleared := db.setStore storeName []
  arrayBuffers.foldl (fun d buf => d.setStore storeName (d.getStore storeName ++ [buf])) cleared

/-! Auxiliary notions used to state the claims over the definitions above. -/

/-- The user data of one append to the placement store: the pointer position,
the page clicked, and the global UI selection (variant toggle, height slider)
at that moment. -/
structure AppendReq where
  x : ℚ
  y : ℚ
  pageIndex : ℕ
  height : ℚ
  type : SignType
deriving DecidableEq, Repr

/-- Apply a sequence of signOnPage appends to a store state, in order. -/
def applyAppends (init : List GlobalSignedLocation) (reqs : List AppendReq) :
    List GlobalSignedLocation :=
  reqs.foldl (fun s r => signOnPage s r.type r.height r.pageIndex r.x r.y) init

/-- Apply the undo operation n times. -/
def undoN : ℕ → List GlobalSignedLocation → List GlobalSignedLocation
  | 0, s => s
  | n + 1, s => undoN n (undo s)

/-- The placements of one variant, in insertion order (the filter the App
closures use to compute the next variantIndex). -/
def variantFiltered (s : List GlobalSignedLocation) (v : SignType) :
    List GlobalSignedLocation :=
  s.filter (fun l => decide (l.type = v))

/-- Every placement of every variant carries its 0-based position among the
placements of its variant as its stamp index i. -/
def VariantIndexed (s : List GlobalSignedLocation) : Prop :=
  ∀ v k loc, (variantFiltered s v).get? k = some loc → loc.i = k

/-! Helper lemmas. -/

theorem undo_concat (s : List GlobalSignedLocation) (e : GlobalSignedLocation) :
    undo (s ++ [e]) = s := by
  simp [undo]

theorem signOnPage_eq_concat (s : List GlobalSignedLocation) (t : SignType) (h : ℚ)
    (idx : ℕ) (x y : ℚ) :
    signOnPage s t h idx x y = s ++ [mkPlacement s t h idx x y] := rfl

theorem applyAppends_cons (init : List GlobalSignedLocation) (r : AppendReq)
    (reqs : List AppendReq) :
    applyAppends init (r :: reqs) =
      applyAppends (signOnPage init r.type r.height r.pageIndex r.x r.y) reqs := rfl

theorem applyAppends_decomp (reqs : List AppendReq) (init : List GlobalSignedLocation) :
    ∃ extra, applyAppends init reqs = init ++ extra ∧ extra.length = reqs.length := by
  induction reqs generalizing init with
  | nil => exact ⟨[], by simp [applyAppends], rfl⟩
  | cons r rs ih =>
    obtain ⟨extra, heq, hlen⟩ := ih (signOnPage init r.type r.height r.pageIndex r.x r.y)
    refine ⟨mkPlacement init r.type r.height r.pageIndex r.x r.y :: extra, ?_, ?_⟩
    · rw [applyAppends_cons, heq, signOnPage_eq_concat]
      simp
    · simp [hlen]

theorem undoN_concat (extra init : List GlobalSignedLocation) :
    undoN extra.length (init ++ extra) = init := by
  induction extra using List.reverseRecOn with
  | nil => simp [undoN]
  | append_singleton xs x ih =>
    have hlen : (xs ++ [x]).length = xs.length + 1 := by simp
    rw [hlen, undoN, ← List.append_assoc, undo_concat]
    exact ih

theorem modifyLast_concat (f : PdfPage → PdfPage) (l : List PdfPage) (p : PdfPage) :
    modifyLast f (l ++ [p]) = l ++ [f p] := by
  induction l with
  | nil => rfl
  | cons a l ih =>
    cases l with
    | nil => rfl
    | cons b l2 =>
      simp only [List.cons_append] at ih ⊢
      rw [show modifyLast f (a :: b :: (l2 ++ [p])) = a :: modifyLast f (b :: (l2 ++ [p]))
          from rfl]
      rw [ih]

theorem exportStep_pages (doc : JsPdf) (c : ExportCanvas) :
    (exportStep doc c).pages = doc.pages ++ [exportedPage c] := by
  show modifyLast _ (doc.pages ++ [{ width := c.width, height := c.height, images := [] }]) = _
  rw [modifyLast_concat]
  rfl

theorem foldl_exportStep (cs : List ExportCanvas) (doc : JsPdf) :
    (cs.foldl exportStep doc).pages = doc.pages ++ cs.map exportedPage := by
  induction cs generalizing doc with
  | nil => simp
  | cons c cs ih =>
    rw [List.foldl_cons, ih, exportStep_pages]
    simp

theorem getStore_setStore_same (db : IDb) (s : StoreName) (v : List Buf) :
    (db.setStore s v).getStore s = v := by
  cases s <;> rfl

theorem getStore_setStore_other (db : IDb) (s : StoreName) (v : List Buf) :
    (db.setStore s v).getStore s.other = db.getStore s.other := by
  cases s <;> rfl

theorem writeBufs_foldl (bufs : List Buf) (d : IDb) (s : StoreName) :
    ((bufs.foldl (fun d buf => d.setStore s (d.getStore s ++ [buf])) d).getStore s
        = d.getStore s ++ bufs) ∧
    ((bufs.foldl (fun d buf => d.setStore s (d.getStore s ++ [buf])) d).getStore s.other
        = d.getStore s.other) := by
  induction bufs generalizing d with
  | nil => simp
  | cons b bs ih =>
    rcases ih (d.setStore s (d.getStore s ++ [b])) with ⟨h1, h2⟩
    rw [List.foldl_cons]
    refine ⟨?_, ?_⟩
    · rw [h1, getStore_setStore_same]
      simp
    · rw [h2, getStore_setStore_other]

/-! Claim theorems. -/

/-- C3: for every placement-store state and every sequence of N appends
followed by N undos, the store returns to exactly its prior contents (in
particular, starting empty it returns to empty); undo removes only the last
element in global insertion order, and undo on an empty store is a no-op. -/
theorem placementStore_appends_then_undos (init : List GlobalSignedLocation)
    (reqs : List AppendReq) (s : List GlobalSignedLocation) (e : GlobalSignedLocation) :
    undoN reqs.length (applyAppends init reqs) = init ∧
    undoN reqs.length (applyAppends [] reqs) = [] ∧
    undo (s ++ [e]) = s ∧
    undo [] = [] := by
  obtain ⟨extra, heq, hlen⟩ := applyAppends_decomp reqs init
  obtain ⟨extra0, heq0, hlen0⟩ := applyAppends_decomp reqs []
  refine ⟨?_, ?_, undo_concat s e, rfl⟩
  · rw [heq, ← hlen]
    exact undoN_concat extra init
  · rw [heq0, ← hlen0]
    exact undoN_concat extra0 []

/-- C4: export produces a PDF with exactly one page per painted canvas, in the
same order, each page sized to its canvas's pixel dimensions and holding that
canvas as a single full-bleed image at the origin; the document the loop
starts from has had the library's default first page deleted, so it is empty
and no extraneous leading blank page is present. -/
theorem exportPdf_pages (defaultPage : PdfPage) (canvasArray : List ExportCanvas) :
    (exportPdf defaultPage canvasArray).pages = canvasArray.map exportedPage ∧
    (exportPdf defaultPage canvasArray).pages.length = canvasArray.length ∧
    ((JsPdf.new defaultPage).deletePage 1).pages = [] := by
  have hstart : ((JsPdf.new defaultPage).deletePage 1).pages = [] := rfl
  have h : (exportPdf defaultPage canvasArray).pages = canvasArray.map exportedPage := by
    unfold exportPdf
    rw [foldl_exportStep, hstart]
    simp
  exact ⟨h, by rw [h]; simp, hstart⟩

/-- C5: whenever a new document finishes parsing, the effect discards all
prior placements (the store becomes empty) and re-creates the canvas-slot
array with exactly one (initially empty) slot per page of the new document,
for any prior state whatsoever — same, fewer, or more pages than before. -/
theorem onParsedPdfChange_resets (st : DocState) (p : ParsedPdf) :
    (onParsedPdfChange st (some p)).signedLocations = [] ∧
    (onParsedPdfChange st (some p)).canvasArray = List.replicate p.images.length none ∧
    (onParsedPdfChange st (some p)).canvasArray.length = p.images.length := by
  refine ⟨rfl, rfl, ?_⟩
  simp [onParsedPdfChange]

/-- C9: saving a set of stamp images for a variant is replace-all — after the
save, the stored entries of that variant's object store are exactly the
buffers of the newly supplied blobs, in order, and the other variant's store
is untouched. -/
theorem writeBlobs_replace_all (blobs : List JsBlob) (db : IDb) (storeName : StoreName) :
    (writeBlobsToIndexedDb blobs db storeName).getStore storeName =
      blobs.map blobToArrayBuffer ∧
    (writeBlobsToIndexedDb blobs db storeName).getStore storeName.other =
      db.getStore storeName.other := by
  unfold writeBlobsToIndexedDb
  rcases writeBufs_foldl (blobs.map blobToArrayBuffer) (db.setStore storeName []) storeName
    with ⟨h1, h2⟩
  refine ⟨?_, ?_⟩
  · rw [h1, getStore_setStore_same]
    simp
  · rw [h2, getStore_setStore_other]

/-- C6: a placement's heightPx is the slider value at append time — the append
leaves every existing placement untouched and stores the current slider value
on the new element only; repainting without a preview is independent of the
current slider value; and the drawImage call rendering a placement always uses
the placement's own stored height. -/
theorem heightPx_frozen (s : List GlobalSignedLocation) (t : SignType) (hv hv2 : ℚ)
    (idx : ℕ) (x y : ℚ) (canvas : Canvas) (image : Img) (sa ia : List Img)
    (loc : SignedLocation) :
    (signOnPage s t hv idx x y).take s.length = s ∧
    (mkPlacement s t hv idx x y).height = hv ∧
    drawOnCanvas canvas image sa ia s t hv idx none =
      drawOnCanvas canvas image sa ia s t hv2 idx none ∧
    (signStampCall sa ia loc).map (fun c => c.h) =
      (signStampCall sa ia loc).map (fun _ => loc.height) := by
  refine ⟨?_, rfl, rfl, ?_⟩
  · rw [signOnPage_eq_concat]
    exact List.take_left s _
  · simp only [signStampCall, Option.map_map]
    rfl

/-! Round-robin variant indexing (C2) and draw safety (C10). -/

theorem variantFiltered_concat (s : List GlobalSignedLocation) (e : GlobalSignedLocation)
    (v : SignType) :
    variantFiltered (s ++ [e]) v =
      variantFiltered s v ++ (if e.type = v then [e] else []) := by
  unfold variantFiltered
  rw [List.filter_append]
  by_cases h : e.type = v <;> simp [h]

theorem variantIndexed_nil : VariantIndexed [] := by
  intro v k loc h
  simp [variantFiltered] at h

theorem variantIndexed_signOnPage (s : List GlobalSignedLocation) (t : SignType) (hv : ℚ)
    (idx : ℕ) (x y : ℚ) (hs : VariantIndexed s) :
    VariantIndexed (signOnPage s t hv idx x y) := by
  intro v k loc hget
  rw [signOnPage_eq_concat, variantFiltered_concat] at hget
  by_cases htv : (mkPlacement s t hv idx x y).type = v
  · rw [if_pos htv] at hget
    rcases Nat.lt_or_ge k (variantFiltered s v).length with hk | hk
    · rw [List.get?_append hk] at hget
      exact hs v k loc hget
    · rw [List.get?_append_right hk] at hget
      rcases hk.lt_or_eq with hke | hke
      · exfalso
        have h1 : 1 ≤ k - (variantFiltered s v).length := by omega
        rw [List.get?_eq_none.mpr (by simpa using h1)] at hget
        exact Option.noConfusion hget
      · rw [← hke, Nat.sub_self] at hget
        have hloc : loc = mkPlacement s t hv idx x y := by
          simpa using hget.symm
        have ht : t = v := htv
        rw [hloc, ← hke]
        show (variantFiltered s t).length = (variantFiltered s v).length
        rw [ht]
  · rw [if_neg htv] at hget
    rw [List.append_nil] at hget
    exact hs v k loc hget

theorem variantIndexed_applyAppends (reqs : List AppendReq)
    (init : List GlobalSignedLocation) (h : VariantIndexed init) :
    VariantIndexed (applyAppends init reqs) := by
  induction reqs generalizing init with
  | nil => exact h
  | cons r rs ih => exact ih _ (variantIndexed_signOnPage _ _ _ _ _ _ h)

theorem mod_length_lt_iff (i : ℕ) (arr : List Img) :
    i % arr.length < arr.length ↔ arr ≠ [] := by
  constructor
  · intro h hnil
    rw [hnil] at h
    simp at h
  · intro h
    exact Nat.mod_lt _ (List.length_pos.mpr h)

theorem signStampCall_isSome (sa ia : List Img) (loc : SignedLocation) :
    (signStampCall sa ia loc).isSome ↔ variantArray sa ia loc ≠ [] := by
  simp only [signStampCall, Option.isSome_map]
  constructor
  · intro h
    rw [← mod_length_lt_iff loc.i]
    by_contra hge
    rw [List.get?_eq_none.mpr (Nat.le_of_not_lt hge)] at h
    exact Bool.noConfusion h
  · intro h
    have hlt := (mod_length_lt_iff loc.i _).mpr h
    rw [List.get?_eq_get hlt]
    rfl

theorem drawLoop_isSome (sa ia : List Img) (locs : List SignedLocation) :
    (drawLoop sa ia locs).isSome ↔ ∀ loc ∈ locs, variantArray sa ia loc ≠ [] := by
  induction locs with
  | nil => simp [drawLoop]
  | cons loc rest ih =>
    rw [drawLoop]
    cases h : signStampCall sa ia loc with
    | none =>
      have hno : ¬ variantArray sa ia loc ≠ [] := by
        rw [← signStampCall_isSome sa ia loc, h]
        simp
      simp [hno]
    | some c =>
      have harr : variantArray sa ia loc ≠ [] := by
        rw [← signStampCall_isSome sa ia loc, h]
        rfl
      simp [Option.isSome_map, ih, harr]

/-- C2: starting from an empty store, the n-th appended placement of a variant
(0-indexed among that variant's placements in insertion order) carries
variantIndex i = n — which is the count of existing placements of that variant
at append time — and, whenever that variant's image array is non-empty with K
images, draw renders it with source image n mod K of that array. -/
theorem variantIndex_roundRobin (reqs : List AppendReq) (v : SignType) (k : ℕ)
    (loc : GlobalSignedLocation)
    (hget : (variantFiltered (applyAppends [] reqs) v).get? k = some loc)
    (sa ia : List Img)
    (hK : variantArray sa ia loc.toSignedLocation ≠ []) :
    loc.i = k ∧
    (∀ (s : List GlobalSignedLocation) (t : SignType) (hv : ℚ) (idx : ℕ) (x y : ℚ),
      (mkPlacement s t hv idx x y).i = (variantFiltered s t).length) ∧
    ((variantArray sa ia loc.toSignedLocation).get?
        (k % (variantArray sa ia loc.toSignedLocation).length)).isSome ∧
    (signStampCall sa ia loc.toSignedLocation).map (fun c => c.img) =
      (variantArray sa ia loc.toSignedLocation).get?
        (k % (variantArray sa ia loc.toSignedLocation).length) := by
  have hik : loc.i = k :=
    variantIndexed_applyAppends reqs [] variantIndexed_nil v k loc hget
  have hlt := (mod_length_lt_iff k (variantArray sa ia loc.toSignedLocation)).mpr hK
  refine ⟨hik, fun _ _ _ _ _ _ => rfl, ?_, ?_⟩
  · rw [List.get?_eq_get hlt]
    rfl
  · simp only [signStampCall, Option.map_map, hik]
    cases (variantArray sa ia loc.toSignedLocation).get?
        (k % (variantArray sa ia loc.toSignedLocation).length) <;> rfl

/-- Witness for the round-robin theorem: three appends (signature, initial,
signature) from an empty store; the second signature placement sits at
position 1 of the signature-filtered log, carries variantIndex 1, and with a
two-image signature library the lookup 1 mod 2 is in bounds. -/
theorem variantIndex_roundRobin_witness :
    (variantFiltered
        (applyAppends []
          [ { x := 0, y := 0, pageIndex := 0, height := 10, type := SignType.signature }
          , { x := 1, y := 1, pageIndex := 0, height := 10, type := SignType.initial }
          , { x := 2, y := 2, pageIndex := 1, height := 10, type := SignType.signature } ])
        SignType.signature).get? 1 =
      some { x := 2, y := 2, i := 1, height := 10, type := SignType.signature, pageIndex := 1 } ∧
    ({ x := 2, y := 2, i := 1, height := 10, type := SignType.signature, pageIndex := 1 }
        : GlobalSignedLocation).i = 1 ∧
    ((variantArray
        [{ width := 1, height := 1, sample := fun _ _ => some 0 }
        , { width := 2, height := 2, sample := fun _ _ => some 0 }] []
        ({ x := 2, y := 2, i := 1, height := 10, type := SignType.signature, pageIndex := 1 }
          : GlobalSignedLocation).toSignedLocation).get? (1 % 2)).isSome := by
  have h := variantIndex_roundRobin
    [ { x := 0, y := 0, pageIndex := 0, height := 10, type := SignType.signature }
    , { x := 1, y := 1, pageIndex := 0, height := 10, type := SignType.initial }
    , { x := 2, y := 2, pageIndex := 1, height := 10, type := SignType.signature } ]
    SignType.signature 1
    { x := 2, y := 2, i := 1, height := 10, type := SignType.signature, pageIndex := 1 }
    (by decide)
    [{ width := 1, height := 1, sample := fun _ _ => some 0 }
    , { width := 2, height := 2, sample := fun _ _ => some 0 }] []
    (by simp [variantArray])
  exact ⟨by decide, h.1, h.2.2.1⟩

/-- C10: the stamp lookup of draw is in bounds, and its non-null assertion
valid, exactly when the placement's variant image array is non-empty; draw
contains no guard for an empty variant array — the only guarded failure is a
missing 2d context, which silently aborts the paint with no drawImage calls —
so a paint call completes without throwing exactly when there is no context
or every placed location's variant array is non-empty. -/
theorem draw_safety (sa ia : List Img) (loc : SignedLocation) (canvas : Canvas)
    (base : Img) (locs : List SignedLocation) :
    ((signStampCall sa ia loc).isSome ↔ variantArray sa ia loc ≠ []) ∧
    (loc.i % (variantArray sa ia loc).length < (variantArray sa ia loc).length ↔
      variantArray sa ia loc ≠ []) ∧
    (canvas.hasContext = false → draw canvas base sa ia locs = some []) ∧
    ((draw canvas base sa ia locs).isSome ↔
      (canvas.hasContext = false ∨ ∀ l ∈ locs, variantArray sa ia l ≠ [])) := by
  refine ⟨signStampCall_isSome sa ia loc, mod_length_lt_iff loc.i _, ?_, ?_⟩
  · intro h
    simp [draw, h]
  · by_cases h : canvas.hasContext = true
    · simp [draw, h, Option.isSome_map, drawLoop_isSome]
    · rw [Bool.not_eq_true] at h
      simp [draw, h]

/-- Witness for draw_safety: with no 2d context the paint silently performs no
draw calls, and with a context but an empty signature library a paint of one
signature placement throws. -/
theorem draw_safety_witness :
    draw { width := 1, height := 1, hasContext := false }
        { width := 1, height := 1, sample := fun _ _ => none } [] []
        [{ x := 0, y := 0, i := 0, height := 1, type := SignType.signature }] = some [] ∧
    ¬ (draw { width := 1, height := 1, hasContext := true }
        { width := 1, height := 1, sample := fun _ _ => none } [] []
        [{ x := 0, y := 0, i := 0, height := 1, type := SignType.signature }]).isSome := by
  constructor
  · exact (draw_safety [] [] ⟨0, 0, 0, 1, SignType.signature⟩
      ⟨1, 1, false⟩ ⟨1, 1, fun _ _ => none⟩ _).2.2.1 rfl
  · intro hs
    rcases (draw_safety [] [] ⟨0, 0, 0, 1, SignType.signature⟩
        ⟨1, 1, true⟩ ⟨1, 1, fun _ _ => none⟩ _).2.2.2.mp hs with hctx | hall
    · exact Bool.noConfusion hctx
    · exact hall ⟨0, 0, 0, 1, SignType.signature⟩ (by simp) rfl

/-! The in-flight rasterization guard (C7). -/

/-- C7: a rasterization request arriving while one is in flight is rejected
with only a console warning — the hook state is unchanged except the warning
count, so nothing is queued or retried — and the completion of the in-flight
request still publishes that request's images untouched. -/
theorem concurrent_parse_rejected (st : ParseHookState) (fs : List JsFile) (f : JsFile)
    (hf : fs.head? = some f) (hbusy : st.renderInProgress = true)
    (idle : ParseHookState) (hidle : idle.renderInProgress = false)
    (f1 f2 : JsFile) (fs2 : List JsFile) (render : JsFile → List Img) (ts : String) :
    pdfInputOnChangeStart st (some fs) = { st with warnings := st.warnings + 1 } ∧
    (pdfInputOnChangeStart st (some fs)).parsedPdf = st.parsedPdf ∧
    (pdfInputOnChangeStart st (some fs)).pendingFile = st.pendingFile ∧
    (pdfInputOnChangeStart st (some fs)).renderInProgress = st.renderInProgress ∧
    (pdfInputOnChangeComplete
        (pdfInputOnChangeStart
          (pdfInputOnChangeStart idle (some [f1])) (some (f2 :: fs2)))
        render ts).parsedPdf =
      some { images := render f1, parsedAtStr := ts, fileName := f1.name } := by
  have hmain : pdfInputOnChangeStart st (some fs) = { st with warnings := st.warnings + 1 } := by
    simp [pdfInputOnChangeStart, hf, hbusy]
  have hs1 : pdfInputOnChangeStart idle (some [f1]) =
      { idle with renderInProgress := true, pendingFile := some f1 } := by
    simp [pdfInputOnChangeStart, hidle]
  refine ⟨hmain, by rw [hmain], by rw [hmain], by rw [hmain], ?_⟩
  rw [hs1]
  simp [pdfInputOnChangeStart, pdfInputOnChangeComplete]

/-- Witness for the guard theorem: a busy hook rejects a second upload with
one warning and no other change, and an idle hook that starts one render,
rejects a second request, then completes, publishes the first file's images. -/
theorem concurrent_parse_rejected_witness :
    pdfInputOnChangeStart
        { renderInProgress := true, parsedPdf := none,
          pendingFile := some { name := "a.pdf", blobId := 0 }, warnings := 0 }
        (some [{ name := "b.pdf", blobId := 1 }]) =
      { renderInProgress := true, parsedPdf := none,
        pendingFile := some { name := "a.pdf", blobId := 0 }, warnings := 1 } ∧
    (pdfInputOnChangeComplete
        (pdfInputOnChangeStart
          (pdfInputOnChangeStart
            { renderInProgress := false, parsedPdf := none, pendingFile := none, warnings := 0 }
            (some [{ name := "x.pdf", blobId := 2 }]))
          (some [{ name := "y.pdf", blobId := 3 }]))
        (fun _ => []) "t").parsedPdf =
      some { images := [], parsedAtStr := "t", fileName := "x.pdf" } := by
  have h := concurrent_parse_rejected
    { renderInProgress := true, parsedPdf := none,
      pendingFile := some { name := "a.pdf", blobId := 0 }, warnings := 0 }
    [{ name := "b.pdf", blobId := 1 }] { name := "b.pdf", blobId := 1 } rfl rfl
    { renderInProgress := false, parsedPdf := none, pendingFile := none, warnings := 0 } rfl
    { name := "x.pdf", blobId := 2 } { name := "y.pdf", blobId := 3 } [] (fun _ => []) "t"
  exact ⟨h.1, h.2.2.2.2⟩

/-! Rasterization concurrency (C8). -/

theorem pageNums_get (n k : ℕ) (hk : k < n) : (pageNums n).get? k = some (k + 1) := by
  rw [pageNums, List.get?_eq_getElem?]
  simp [List.getElem?_map, List.getElem?_range hk]

theorem length_pageNums (n : ℕ) : (pageNums n).length = n := by
  simp [pageNums]

theorem finish_not_mem_starts (p : ℕ) (l : List ℕ) :
    PageEv.finish p ∉ l.map PageEv.start := by
  simp

/-- C8 counterexample: in a two-page document, page 2's render task is started
before page 1's has finished (and vice versa) — the trace of renderPdfToImgs
does not render pages strictly one at a time. -/
theorem renderTrace_not_sequential :
    ¬ SequentialOneAtATime (renderTrace 2 [1, 2]) := by
  intro h
  exact h 1 2 (by decide) ⟨by decide, by decide⟩

/-- C8 amended: every page's render task is started, in page order, before any
page's task completes — all page renders are concurrently in flight — and the
image array the rasterizer returns lists page images in page order regardless
of the order in which the per-page tasks completed. -/
theorem renderTrace_concurrent_starts (n : ℕ) (co : List ℕ) (p q : ℕ)
    (hp : p ∈ pageNums n) (hq : q ∈ pageNums n)
    (k : ℕ) (hk : k < n) (imageOf : ℕ → Img) :
    Overlaps (renderTrace n co) p q ∧
    (renderTrace n co).get? k = some (PageEv.start (k + 1)) ∧
    (promiseAllImages n imageOf).get? k = some (imageOf (k + 1)) := by
  have hstart : ∀ r, r ∈ pageNums n →
      (renderTrace n co).indexOf (PageEv.start r) < n := by
    intro r hr
    have hmem : PageEv.start r ∈ (pageNums n).map PageEv.start :=
      List.mem_map_of_mem _ hr
    rw [renderTrace, List.indexOf_append_of_mem hmem]
    have := List.indexOf_lt_length.mpr hmem
    simpa [length_pageNums] using this
  have hfinish : ∀ r, n ≤ (renderTrace n co).indexOf (PageEv.finish r) := by
    intro r
    rw [renderTrace, List.indexOf_append_of_not_mem (finish_not_mem_starts r _)]
    simp [length_pageNums]
  refine ⟨⟨lt_of_lt_of_le (hstart q hq) (hfinish p),
          lt_of_lt_of_le (hstart p hp) (hfinish q)⟩, ?_, ?_⟩
  · rw [renderTrace, List.get?_append]
    · rw [List.get?_eq_getElem?]
      simp only [List.getElem?_map]
      rw [← List.get?_eq_getElem?, pageNums_get n k hk]
      rfl
    · simpa [length_pageNums] using hk
  · rw [promiseAllImages, List.get?_eq_getElem?]
    simp only [List.getElem?_map]
    rw [← List.get?_eq_getElem?, pageNums_get n k hk]
    rfl

/-! The compositor paint (C1). -/

theorem renderPoint_cons (c : DrawCall) (cs : List DrawCall) (prior : Color) (px py : ℚ) :
    renderPoint (c :: cs) prior px py =
      renderPoint cs ((c.contribution px py).getD prior) px py := rfl

theorem drawLoop_append_some (sa ia : List Img) (l1 l2 : List SignedLocation)
    (s1 s2 : List DrawCall) (h1 : drawLoop sa ia l1 = some s1)
    (h2 : drawLoop sa ia l2 = some s2) :
    drawLoop sa ia (l1 ++ l2) = some (s1 ++ s2) := by
  induction l1 generalizing s1 with
  | nil =>
    rw [drawLoop] at h1
    injection h1 with h1
    rw [← h1, List.nil_append, List.nil_append, h2]
  | cons loc rest ih =>
    rw [List.cons_append, drawLoop]
    rw [drawLoop] at h1
    cases hc : signStampCall sa ia loc with
    | none =>
      rw [hc] at h1
      exact Option.noConfusion h1
    | some c =>
      rw [hc] at h1
      cases hr : drawLoop sa ia rest with
      | none =>
        rw [hr] at h1
        exact Option.noConfusion h1
      | some s1' =>
        rw [hr] at h1
        injection h1 with h1
        rw [ih s1' hr, ← h1]
        rfl

theorem drawLoop_append_none (sa ia : List Img) (l1 : List SignedLocation)
    (p : SignedLocation) (hp : signStampCall sa ia p = none) :
    drawLoop sa ia (l1 ++ [p]) = none := by
  induction l1 with
  | nil =>
    rw [List.nil_append, drawLoop, hp]
  | cons loc rest ih =>
    rw [List.cons_append, drawLoop]
    cases hc : signStampCall sa ia loc with
    | none => rfl
    | some c => rw [ih]; rfl

theorem baseCall_contribution (base : Img) (px py : ℚ)
    (hx0 : 0 ≤ px) (hx1 : px < base.width) (hy0 : 0 ≤ py) (hy1 : py < base.height) :
    (baseCall base).contribution px py = base.sample px py := by
  have hwpos : (0 : ℚ) < base.width := lt_of_le_of_lt hx0 hx1
  have hhpos : (0 : ℚ) < base.height := lt_of_le_of_lt hy0 hy1
  show (if (0 : ℚ) ≤ px ∧ px < 0 + base.width ∧ (0 : ℚ) ≤ py ∧ py < 0 + base.height then
      base.sample ((px - 0) * base.width / base.width) ((py - 0) * base.height / base.height)
    else none) = base.sample px py
  rw [if_pos ⟨hx0, by simpa using hx1, hy0, by simpa using hy1⟩]
  rw [sub_zero, sub_zero, mul_div_cancel_right₀ _ (ne_of_gt hwpos),
    mul_div_cancel_right₀ _ (ne_of_gt hhpos)]

/-- C1: with a 2d context present, paint draws the base page image at the
origin first, then the real placements in log order, then the preview
placement last; each placement's drawImage call is centered at its (x, y)
with height heightPx and aspect-preserving width; painting the base image
fully overwrites prior pixels (the composited result is independent of the
canvas's prior contents wherever the opaque base covers it); and painting
with an empty placement list and no preview performs only the base draw,
reproducing the base raster pixel for pixel. -/
theorem draw_paint (canvas : Canvas) (base : Img) (sa ia : List Img)
    (real : List SignedLocation) (stamps : List DrawCall) (preview : SignedLocation)
    (hctx : canvas.hasContext = true)
    (hreal : drawLoop sa ia real = some stamps)
    (hw : canvas.width = base.width) (hh : canvas.height = base.height)
    (hopq : ∀ x y : ℚ, 0 ≤ x → x < base.width → 0 ≤ y → y < base.height →
      (base.sample x y).isSome) :
    (draw canvas base sa ia (real ++ [preview]) =
      (signStampCall sa ia preview).map (fun ps => baseCall base :: (stamps ++ [ps]))) ∧
    (draw canvas base sa ia real = some (baseCall base :: stamps)) ∧
    (draw canvas base sa ia [] = some [baseCall base]) ∧
    (∀ loc c, signStampCall sa ia loc = some c →
      c.x + c.w / 2 = loc.x ∧ c.y + c.h / 2 = loc.y ∧ c.h = loc.height ∧
        c.w = c.h * (c.img.width / c.img.height)) ∧
    (∀ pc pc2 : Color, ∀ px py : ℚ, 0 ≤ px → px < canvas.width → 0 ≤ py → py < canvas.height →
      renderPoint (baseCall base :: stamps) pc px py =
        renderPoint (baseCall base :: stamps) pc2 px py) ∧
    (∀ pc : Color, ∀ px py : ℚ, 0 ≤ px → px < canvas.width → 0 ≤ py → py < canvas.height →
      ∃ col, base.sample px py = some col ∧ renderPoint [baseCall base] pc px py = col) := by
  have hbase : ∀ px py : ℚ, 0 ≤ px → px < canvas.width → 0 ≤ py → py < canvas.height →
      ∃ col, (baseCall base).contribution px py = some col ∧ base.sample px py = some col := by
    intro px py h1 h2 h3 h4
    have h2b : px < base.width := by rw [← hw]; exact h2
    have h4b : py < base.height := by rw [← hh]; exact h4
    obtain ⟨col, hcol⟩ := Option.isSome_iff_exists.mp (hopq px py h1 h2b h3 h4b)
    exact ⟨col, by rw [baseCall_contribution base px py h1 h2b h3 h4b, hcol], hcol⟩
  refine ⟨?_, ?_, ?_, ?_, ?_, ?_⟩
  · cases hp : signStampCall sa ia preview with
    | none =>
      rw [draw, if_pos hctx, drawLoop_append_none sa ia real preview hp]
      rfl
    | some ps =>
      have hone : drawLoop sa ia [preview] = some [ps] := by
        rw [drawLoop, hp]
        rfl
      rw [draw, if_pos hctx, drawLoop_append_some sa ia real [preview] stamps [ps] hreal hone]
      rfl
  · rw [draw, if_pos hctx, hreal]
    rfl
  · rw [draw, if_pos hctx]
    rfl
  · intro loc c hc
    revert hc
    show (Option.map _ ((variantArray sa ia loc).get?
      (loc.i % (variantArray sa ia loc).length)) = some c) → _
    cases (variantArray sa ia loc).get? (loc.i % (variantArray sa ia loc).length) with
    | none => intro hc; exact Option.noConfusion hc
    | some img =>
      intro hc
      injection hc with hc
      rw [← hc]
      refine ⟨by ring, by ring, rfl, rfl⟩
  · intro pc pc2 px py h1 h2 h3 h4
    obtain ⟨col, hcon, _⟩ := hbase px py h1 h2 h3 h4
    rw [renderPoint_cons, renderPoint_cons, hcon]
    rfl
  · intro pc px py h1 h2 h3 h4
    obtain ⟨col, hcon, hsam⟩ := hbase px py h1 h2 h3 h4
    refine ⟨col, hsam, ?_⟩
    rw [renderPoint_cons, hcon]
    rfl

/-- Witness for the paint theorem: a 2-by-2 opaque base page on a matching
canvas with an empty placement list paints only the base call, the composite
at an interior point equals the base raster's pixel there independently of
the prior canvas color, and appending a preview placement adds its stamp
call after the base. -/
theorem draw_paint_witness :
    (draw { width := 2, height := 2, hasContext := true }
        { width := 2, height := 2, sample := fun _ _ => some 9 }
        [{ width := 1, height := 1, sample := fun _ _ => some 3 }] [] [] =
      some [baseCall { width := 2, height := 2, sample := fun _ _ => some 9 }]) ∧
    renderPoint [baseCall { width := 2, height := 2, sample := fun _ _ => some 9 }] 0 1 1 = 9 ∧
    renderPoint [baseCall { width := 2, height := 2, sample := fun _ _ => some 9 }] 5 1 1 = 9 := by
  have h := draw_paint { width := 2, height := 2, hasContext := true }
    { width := 2, height := 2, sample := fun _ _ => some 9 }
    [{ width := 1, height := 1, sample := fun _ _ => some 3 }] [] [] []
    { x := 1, y := 1, i := 0, height := 1, type := SignType.signature }
    rfl rfl rfl rfl (fun _ _ _ _ _ _ => rfl)
  obtain ⟨col, hsam, hrp⟩ := h.2.2.2.2.2 0 1 1 (by norm_num) (by norm_num)
    (by norm_num) (by norm_num)
  obtain ⟨col2, hsam2, hrp2⟩ := h.2.2.2.2.2 5 1 1 (by norm_num) (by norm_num)
    (by norm_num) (by norm_num)
  have hcol : col = 9 := by
    have : some 9 = some col := hsam
    injection this with h9
    exact h9.symm
  have hcol2 : col2 = 9 := by
    have : some 9 = some col2 := hsam2
    injection this with h9
    exact h9.symm
  exact ⟨h.2.2.1, by rw [hrp, hcol], by rw [hrp2, hcol2]⟩

/-- Witness for the amended concurrency theorem on a two-page document. -/
theorem renderTrace_concurrent_starts_witness :
    Overlaps (renderTrace 2 []) 1 2 ∧
    (renderTrace 2 []).get? 0 = some (PageEv.start 1) ∧
    (promiseAllImages 2 (fun _ => { width := 1, height := 1, sample := fun _ _ => some 0 })).get? 0 =
      some { width := 1, height := 1, sample := fun _ _ => some 0 } := by
  exact renderTrace_concurrent_starts 2 [] 1 2 (by decide) (by decide) 0 (by decide)
    (fun _ => { width := 1, height := 1, sample := fun _ _ => some 0 })

end Signatur

